import Mathlib

/-!
Verification of the `ra_ide_api` facade of rust-analyzer
(`src/crates/ra_ide_api/src/lib.rs`) against its natural-language
specification.

The file shallowly embeds the data model of the crate: the `Cancelable`
result type, the `Query` value object for fuzzy symbol search, the shape
of the `Analysis` facade surface, and — modelled from the spec where the
implementing crates (`ra_db`/salsa, `change.rs`, `symbol_index.rs`) are
not part of this repository snapshot — the host/snapshot/cancellation
substrate, the memoizing database, and the symbol index.
-/

set_option maxRecDepth 4096

namespace RaIdeApi

/-- Type `Canceled` (re-exported from `ra_db`): the single staleness signal.
Modelled from the spec: a "single uniform stale signal", carrying no
data, so a one-constructor inductive with no fields. -/
inductive Canceled : Type where
  | canceled : Canceled
  deriving Repr, DecidableEq

/-- Alias `pub type Cancelable<T> = Result<T, Canceled>;` (lib.rs line 75).
Rust's `Result<T, E>` is embedded as `Except E T`. -/
def Cancelable (T : Type) : Type := Except Canceled T

/-- Constructor `Result::Ok` for `Cancelable`. -/
def Cancelable.ok {T : Type} (v : T) : Cancelable T := Except.ok v

/-- Constructor `Result::Err(Canceled)` for `Cancelable`. -/
def Cancelable.err {T : Type} : Cancelable T := Except.error Canceled.canceled

instance {T : Type} [DecidableEq T] : DecidableEq (Cancelable T) := fun a b =>
  match a, b with
  | Except.ok x, Except.ok y =>
    if h : x = y then Decidable.isTrue (by rw [h])
    else Decidable.isFalse (fun he => h (Except.ok.inj he))
  | Except.ok _, Except.error _ => Decidable.isFalse (fun he => Except.noConfusion he)
  | Except.error _, Except.ok _ => Decidable.isFalse (fun he => Except.noConfusion he)
  | Except.error e, Except.error e' =>
    Decidable.isTrue (by cases e; cases e'; rfl)

/-- Struct `Query` (lib.rs lines 112-120): a fuzzy-search query carrying
the original text, the lowercased text, the three flags
`only_types` / `libs` / `exact`, and the result `limit`.
`usize` is embedded as `Nat`. -/
structure Query : Type where
  query : String
  lowercased : String
  only_types : Bool
  libs : Bool
  exact : Bool
  limit : Nat
  deriving Repr, DecidableEq

/-- Function `str::to_lowercase` of Rust as used by `Query::new`; embedded as the
per-character lowercase map on the string. -/
def to_lowercase (s : String) : String := s.toLower

/-- Constant `usize::max_value()`: `usize` is embedded as `Nat` with the 64-bit
maximum value. -/
def usizeMax : Nat := 2 ^ 64 - 1

/-- Constructor `Query::new` (lib.rs lines 123-133): lowercases the text and starts
with all flags cleared and the limit at `usize::max_value()`. -/
def Query.new (query : String) : Query :=
  let lowercased := to_lowercase query
  { query := query
    lowercased := lowercased
    only_types := false
    libs := false
    exact := false
    limit := usizeMax }

/-- Setter `Query::only_types` (lib.rs lines 135-137): `self.only_types = true`.
Rust's `&mut self` setter is embedded as a function returning the
updated value; named with a prime because the field keeps the source
name. -/
def Query.only_types' (q : Query) : Query := { q with only_types := true }

/-- Setter `Query::libs` (lib.rs lines 139-141): `self.libs = true`. -/
def Query.libs' (q : Query) : Query := { q with libs := true }

/-- Setter `Query::exact` (lib.rs lines 143-145): `self.exact = true`. -/
def Query.exact' (q : Query) : Query := { q with exact := true }

/-- Setter `Query::limit` (lib.rs lines 147-149): `self.limit = limit`. -/
def Query.limit' (q : Query) (limit : Nat) : Query := { q with limit := limit }

/-! ## The facade surface of `Analysis`

The public query methods of `impl Analysis` (lib.rs lines 217-392) that
form the facade surface (spec section 6's operation table; the debug
helpers `status` and `syntax_tree` are not part of that surface).  Each
operation is embedded together with the shape of its signature, read
off the Rust declaration. -/

/-- The operations of the facade surface, one constructor per method of
`impl Analysis` appearing in the spec's facade table. -/
inductive FacadeOp : Type where
  | file_text
  | parse
  | file_line_index
  | extend_selection
  | matching_brace
  | join_lines
  | on_enter
  | on_eq_typed
  | on_dot_typed
  | file_structure
  | folding_ranges
  | symbol_search
  | goto_definition
  | goto_implementation
  | find_all_refs
  | hover
  | call_info
  | parent_module
  | crate_for
  | crate_root
  | runnables
  | highlight
  | completions
  | assists
  | diagnostics
  | type_of
  | rename
  deriving Repr, DecidableEq

/-- The kind of the (non-`self`) input parameter of a facade method. -/
inductive InputKind : Type where
  | fileId
  | filePosition
  | fileRange
  | queryParams
  | crateId
  | filePositionAndNewName
  deriving Repr, DecidableEq

/-- The kind of the output (inside the `Cancelable` wrapper when there
is one) of a facade method. -/
inductive OutputKind : Type where
  | text
  | syntaxTree
  | lineIndex
  | range
  | optionalOffset
  | edit
  | optionalEdit
  | outlineNodes
  | foldRanges
  | navTargetList
  | optionalRangeNavTargets
  | fileRangeList
  | optionalRangeText
  | optionalCallInfo
  | crateIdList
  | fileId
  | runnableList
  | styledRangeList
  | optionalCompletionList
  | sourceChangeList
  | diagnosticList
  | optionalText
  deriving Repr, DecidableEq

/-- The input parameter kind of each facade method, read off the Rust
signatures in lib.rs lines 217-392.  In particular `join_lines` takes
`frange: FileRange` (line 254) while `on_enter`, `on_eq_typed` and
`on_dot_typed` take `position: FilePosition` (lines 264, 273, 280). -/
def inputKind : FacadeOp → InputKind
  | .file_text => .fileId
  | .parse => .fileId
  | .file_line_index => .fileId
  | .extend_selection => .fileRange
  | .matching_brace => .filePosition
  | .join_lines => .fileRange
  | .on_enter => .filePosition
  | .on_eq_typed => .filePosition
  | .on_dot_typed => .filePosition
  | .file_structure => .fileId
  | .folding_ranges => .fileId
  | .symbol_search => .queryParams
  | .goto_definition => .filePosition
  | .goto_implementation => .filePosition
  | .find_all_refs => .filePosition
  | .hover => .filePosition
  | .call_info => .filePosition
  | .parent_module => .filePosition
  | .crate_for => .fileId
  | .crate_root => .crateId
  | .runnables => .fileId
  | .highlight => .fileId
  | .completions => .filePosition
  | .assists => .fileRange
  | .diagnostics => .fileId
  | .type_of => .fileRange
  | .rename => .filePositionAndNewName

/-- The output kind of each facade method, read off the Rust return
types in lib.rs lines 217-392.  In particular `join_lines` returns
`SourceChange` (line 254, a non-optional edit) while `on_enter`,
`on_eq_typed` and `on_dot_typed` return `Option<SourceChange>`. -/
def outputKind : FacadeOp → OutputKind
  | .file_text => .text
  | .parse => .syntaxTree
  | .file_line_index => .lineIndex
  | .extend_selection => .range
  | .matching_brace => .optionalOffset
  | .join_lines => .edit
  | .on_enter => .optionalEdit
  | .on_eq_typed => .optionalEdit
  | .on_dot_typed => .optionalEdit
  | .file_structure => .outlineNodes
  | .folding_ranges => .foldRanges
  | .symbol_search => .navTargetList
  | .goto_definition => .optionalRangeNavTargets
  | .goto_implementation => .optionalRangeNavTargets
  | .find_all_refs => .fileRangeList
  | .hover => .optionalRangeText
  | .call_info => .optionalCallInfo
  | .parent_module => .navTargetList
  | .crate_for => .crateIdList
  | .crate_root => .fileId
  | .runnables => .runnableList
  | .highlight => .styledRangeList
  | .completions => .optionalCompletionList
  | .assists => .sourceChangeList
  | .diagnostics => .diagnosticList
  | .type_of => .optionalText
  | .rename => .optionalEdit

/-- Whether a facade method wraps its return type in `Cancelable`, read
off the Rust return types in lib.rs lines 217-392 (`true` exactly when
the declared return type is `Cancelable<...>`). -/
def returnsCancelable : FacadeOp → Bool
  | .file_text => false
  | .parse => false
  | .file_line_index => false
  | .extend_selection => true
  | .matching_brace => false
  | .join_lines => false
  | .on_enter => false
  | .on_eq_typed => false
  | .on_dot_typed => false
  | .file_structure => false
  | .folding_ranges => false
  | .symbol_search => true
  | .goto_definition => true
  | .goto_implementation => true
  | .find_all_refs => true
  | .hover => true
  | .call_info => true
  | .parent_module => true
  | .crate_for => true
  | .crate_root => true
  | .runnables => true
  | .highlight => true
  | .completions => true
  | .assists => true
  | .diagnostics => true
  | .type_of => true
  | .rename => true

/-- The spec's list of "pure syntax-only helpers" (file text, parse,
line index, matching brace, join lines, on-enter/on-eq/on-dot edits,
file structure, folding ranges), written directly from the spec's words
for comparison with `returnsCancelable`, which comes from the source. -/
def specSyntaxOnlyHelper : FacadeOp → Bool
  | .file_text => true
  | .parse => true
  | .file_line_index => true
  | .matching_brace => true
  | .join_lines => true
  | .on_enter => true
  | .on_eq_typed => true
  | .on_dot_typed => true
  | .file_structure => true
  | .folding_ranges => true
  | _ => false

/-! ## Host / Snapshot / cancellation substrate

`AnalysisHost::apply_change` and `Analysis` (lib.rs lines 172-215)
delegate to `db::RootDatabase`, `change::AnalysisChange` and the salsa
library, whose sources are not part of this repository snapshot; the
substrate below is therefore modelled from the spec (sections 3, 4.2,
4.3, 5). -/

/-- Modelled from the spec: `LibraryData` (re-exported from `change.rs`,
not in this snapshot) — "add library data (id, text, flagged
read-only/immutable)": a batch of read-only files. -/
structure LibraryData : Type where
  files : List (Nat × String)
  deriving Repr, DecidableEq

/-- Modelled from the spec: the project (crate/module) graph updated by
a Change — embedded as a list of crate-dependency edges. -/
def CrateGraph : Type := List (Nat × Nat)

/-- Modelled from the spec: `AnalysisChange` (`change.rs`, not in this
snapshot) — "append-only set of operations: add file(id, text,
source-root), remove file(id), edit file(id, new-text), update project
graph, add library data". File ids and source-root ids are `Nat`. -/
structure AnalysisChange : Type where
  files_added : List (Nat × Nat × String)
  files_removed : List Nat
  files_edited : List (Nat × String)
  crate_graph_update : Option CrateGraph
  libraries_added : List LibraryData

/-- The Change batch with every edit set empty. -/
def AnalysisChange.empty : AnalysisChange :=
  { files_added := []
    files_removed := []
    files_edited := []
    crate_graph_update := none
    libraries_added := [] }

/-- Modelled from the spec: the base-level inputs of the incremental
database — file text keyed by file id, the project graph, and the
immutable library data. -/
structure Inputs : Type where
  fileText : Nat → Option String
  crateGraph : CrateGraph
  libraries : List LibraryData

/-- Modelled from the spec: applying a Change batch to the database
inputs — additions and edits set file text, removals clear it, a graph
update replaces the graph, and library data is appended. -/
def applyChangeInputs (c : AnalysisChange) (st : Inputs) : Inputs :=
  let ft := c.files_added.foldl
    (fun m p => fun i => if i = p.2.1 then some p.2.2 else m i) st.fileText
  let ft := c.files_edited.foldl
    (fun m p => fun i => if i = p.1 then some p.2 else m i) ft
  let ft := c.files_removed.foldl
    (fun m i0 => fun i => if i = i0 then none else m i) ft
  { fileText := ft
    crateGraph := c.crate_graph_update.getD st.crateGraph
    libraries := st.libraries ++ c.libraries_added }

/-- Struct `AnalysisHost` (lib.rs lines 172-200): the single mutation
authority.  Modelled from the spec: its `db::RootDatabase` is the
current inputs plus the revision counter. -/
structure AnalysisHost : Type where
  inputs : Inputs
  revision : Nat

/-- Struct `Analysis` (lib.rs lines 202-209): a snapshot of a world state at a
moment in time.  Modelled from the spec: a frozen reference to the
database (structurally shared, so cancellation is detected by the
captured revision, not by copying) plus the captured revision. -/
structure Analysis : Type where
  inputs : Inputs
  capturedRevision : Nat

/-- Method `AnalysisHost::analysis` (lib.rs lines 181-185): take a Snapshot of
the current state, capturing the current revision. -/
def AnalysisHost.analysis (h : AnalysisHost) : Analysis :=
  { inputs := h.inputs, capturedRevision := h.revision }

/-- Method `AnalysisHost::apply_change` (lib.rs lines 189-191).  Modelled from
the spec: apply every mutation of the batch to the inputs and advance
the revision counter by one; outstanding Snapshots are thereby
canceled, since their captured revision is no longer current. -/
def AnalysisHost.apply_change (h : AnalysisHost) (c : AnalysisChange) : AnalysisHost :=
  { inputs := applyChangeInputs c h.inputs, revision := h.revision + 1 }

/-- Method `AnalysisHost::collect_garbage` (lib.rs lines 197-199).  Modelled
from the spec: purely a memory-management operation on the cache — it
touches neither the inputs nor the revision counter (the cache itself
is modelled separately, in `MemoDb`). -/
def AnalysisHost.collect_garbage (h : AnalysisHost) : AnalysisHost := h

/-- Method `AnalysisHost::maybe_collect_garbage` (lib.rs lines 193-195).
Modelled from the spec: heuristic, may no-op; same observable effect as
`collect_garbage`. -/
def AnalysisHost.maybe_collect_garbage (h : AnalysisHost) : AnalysisHost := h

/-- An operation the Host may perform after a Snapshot is taken. -/
inductive HostOp : Type where
  | applyChange (c : AnalysisChange)
  | collectGarbage
  | maybeCollectGarbage

/-- One Host step. -/
def stepHost (h : AnalysisHost) : HostOp → AnalysisHost
  | .applyChange c => h.apply_change c
  | .collectGarbage => h.collect_garbage
  | .maybeCollectGarbage => h.maybe_collect_garbage

/-- A sequence of Host steps. -/
def runHost (h : AnalysisHost) : List HostOp → AnalysisHost
  | [] => h
  | op :: ops => runHost (stepHost h op) ops

/-- Modelled from the spec: `Analysis::with_db` (lib.rs lines 394-399)
runs a query body against the snapshot under `catch_canceled` (from
`ra_db`, not in this snapshot): the cooperative-cancellation checkpoint
compares the Snapshot's captured revision with the Host's current
revision; on mismatch the query yields `Err(Canceled)`, otherwise the
body's value computed from the snapshot's inputs. -/
def Analysis.with_db {T : Type} (s : Analysis) (cur : Nat) (f : Inputs → T) :
    Cancelable T :=
  if s.capturedRevision = cur then Cancelable.ok (f s.inputs) else Cancelable.err

/-! ## The memoizing incremental database

Modelled from the spec (sections 3 and 4.1): the salsa database behind
`db::RootDatabase` is not part of this repository snapshot.  A cache
entry stores the memoized value and the revision at which it was last
verified; a query run returns the cached value when the entry is
verified at the current revision and otherwise recomputes from the
inputs and re-stamps the entry. -/

/-- Modelled from the spec: a cache entry `{value, verified_revision}`
of the incremental database. -/
structure CacheEntry (α : Type) : Type where
  value : α
  verifiedRevision : Nat

/-- Modelled from the spec: the incremental database — base inputs, the
revision counter, and the memo cache keyed by query key. -/
structure MemoDb (κ α : Type) : Type where
  inputs : Inputs
  revision : Nat
  cache : κ → Option (CacheEntry α)

/-- Cache consistency: an entry that is verified at the current
revision holds exactly the value a from-scratch recomputation of the
query on the current inputs would produce (the invariant of spec
section 3 on trustworthy entries). -/
def MemoDb.WellFormed {κ α : Type} (q : κ → Inputs → α) (db : MemoDb κ α) : Prop :=
  ∀ k e, db.cache k = some e → e.verifiedRevision = db.revision →
    e.value = q k db.inputs

/-- Modelled from the spec: `compute(query_key, snapshot)` of section
4.1 — return the cached value when its entry is verified at the current
revision, otherwise recompute from the inputs and store the result
verified at the current revision. -/
def MemoDb.run {κ α : Type} [DecidableEq κ] (q : κ → Inputs → α)
    (db : MemoDb κ α) (k : κ) : α × MemoDb κ α :=
  match db.cache k with
  | some e =>
    if e.verifiedRevision = db.revision then (e.value, db)
    else
      let v := q k db.inputs
      (v, { db with
             cache := fun k2 =>
               if k2 = k then some ⟨v, db.revision⟩ else db.cache k2 })
  | none =>
    let v := q k db.inputs
    (v, { db with
           cache := fun k2 =>
             if k2 = k then some ⟨v, db.revision⟩ else db.cache k2 })

/-- Modelled from the spec: `collect_garbage` on the database evicts a
set of cache entries (those the reclamation policy does not keep) and
touches nothing else — inputs and revision are unchanged.  The keep
policy is left arbitrary, so the transparency theorem covers every
eviction policy. -/
def MemoDb.collect_garbage {κ α : Type} (keep : κ → Bool) (db : MemoDb κ α) :
    MemoDb κ α :=
  { db with cache := fun k => if keep k then db.cache k else none }

/-! ## The symbol index

Modelled from the spec: `symbol_index::world_symbols` (`symbol_index.rs`,
not in this repository snapshot) — fuzzy search over the project's
symbols: filter by the query (exact flag set: name equals the query
text; otherwise the lowercased query occurs in the lowercased name),
order deterministically by file then offset, and truncate to the result
limit. -/

/-- A symbol of the index (`symbol_index::FileSymbol`): name, file id,
and offset of the definition. -/
structure FileSymbol : Type where
  name : String
  file : Nat
  offset : Nat
  deriving Repr, DecidableEq

/-- Membership of one character list inside another, used for the
non-exact (fuzzy containment) match. -/
def containsSub (n : List Char) : List Char → Bool
  | [] => n.isEmpty
  | c :: t => n.isPrefixOf (c :: t) || containsSub n t

/-- Modelled from the spec: whether a symbol matches the query — with
the exact flag, name equality with the query text; without it,
containment of the lowercased query text in the lowercased name. -/
def symbolMatches (q : Query) (s : FileSymbol) : Bool :=
  if q.exact then s.name == q.query
  else containsSub q.lowercased.toList (to_lowercase s.name).toList

/-- The deterministic result order of the spec: by file then offset. -/
def symbolLe (a b : FileSymbol) : Bool :=
  a.file < b.file || (a.file == b.file && a.offset ≤ b.offset)

/-- Insertion into a list ordered by `le`. -/
def insertByLe {α : Type} (le : α → α → Bool) (a : α) : List α → List α
  | [] => [a]
  | b :: t => if le a b then a :: b :: t else b :: insertByLe le a t

/-- Insertion sort by `le`. -/
def sortByLe {α : Type} (le : α → α → Bool) : List α → List α
  | [] => []
  | a :: t => insertByLe le a (sortByLe le t)

/-- Modelled from the spec: `symbol_index::world_symbols` — matching
symbols of the index, deterministically ordered, truncated to the
query's limit. -/
def world_symbols (symbols : List FileSymbol) (q : Query) : List FileSymbol :=
  (sortByLe symbolLe (symbols.filter (symbolMatches q))).take q.limit

/-- Struct `NavigationTarget` (`navigation_target.rs`, not in this
snapshot): the name and location a search result points at. -/
structure NavigationTarget : Type where
  name : String
  file : Nat
  offset : Nat
  deriving Repr, DecidableEq

/-- Conversion `NavigationTarget::from_symbol`, modelled from the spec:
a navigation target carrying the symbol's name and location. -/
def NavigationTarget.from_symbol (s : FileSymbol) : NavigationTarget :=
  { name := s.name, file := s.file, offset := s.offset }

/-- Method `Analysis::symbol_search` (lib.rs lines 300-307): under
`with_db`, the world symbols mapped to navigation targets.  The symbol
index of the database is passed as the `symbols` list. -/
def Analysis.symbol_search (s : Analysis) (cur : Nat)
    (symbols : List FileSymbol) (q : Query) : Cancelable (List NavigationTarget) :=
  s.with_db cur (fun _ => (world_symbols symbols q).map NavigationTarget.from_symbol)

/-! ## Concrete values used by the witnesses -/

/-- Empty project inputs. -/
def inputs0 : Inputs :=
  { fileText := fun _ => none, crateGraph := [], libraries := [] }

/-- A host that has already applied one change (revision 1). -/
def host1 : AnalysisHost := { inputs := inputs0, revision := 1 }

/-- A snapshot captured at revision 0, stale relative to `host1`. -/
def snap0 : Analysis := { inputs := inputs0, capturedRevision := 0 }

/-- A memo database over `Nat` keys with an empty cache. -/
def memoDb0 : MemoDb Nat Nat :=
  { inputs := inputs0, revision := 0, cache := fun _ => none }

/-- A sample query function over the memo database. -/
def memoQuery0 : Nat → Inputs → Nat := fun k inp => k + inp.crateGraph.length

/-- A project with 15 symbols named `foo` and 3 named `foobar` (spec
Scenario B). -/
def scenarioSymbols : List FileSymbol :=
  [⟨"foo", 1, 0⟩, ⟨"foo", 1, 8⟩, ⟨"foo", 1, 16⟩,
   ⟨"foo", 2, 0⟩, ⟨"foo", 2, 8⟩, ⟨"foo", 2, 16⟩,
   ⟨"foo", 3, 0⟩, ⟨"foo", 3, 8⟩, ⟨"foo", 3, 16⟩,
   ⟨"foo", 4, 0⟩, ⟨"foo", 4, 8⟩, ⟨"foo", 4, 16⟩,
   ⟨"foo", 5, 0⟩, ⟨"foo", 5, 8⟩, ⟨"foo", 5, 16⟩,
   ⟨"foobar", 6, 0⟩, ⟨"foobar", 6, 8⟩, ⟨"foobar", 6, 16⟩]

/-- The query of spec Scenario B: text `foo`, exact flag set, limit 10. -/
def scenarioQuery : Query := ((Query.new "foo").exact').limit' 10

/-! ## Helper lemmas -/

theorem with_db_ok {T : Type} (s : Analysis) (cur : Nat) (f : Inputs → T)
    (heq : s.capturedRevision = cur) :
    s.with_db cur f = Cancelable.ok (f s.inputs) := by
  simp [Analysis.with_db, heq]

theorem with_db_err {T : Type} (s : Analysis) (cur : Nat) (f : Inputs → T)
    (hne : s.capturedRevision ≠ cur) :
    s.with_db cur f = Cancelable.err := by
  simp [Analysis.with_db, hne]

theorem ok_ne_err {T : Type} (v : T) : Cancelable.ok v ≠ Cancelable.err := by
  intro h
  exact Except.noConfusion h

theorem with_db_stale_ne {T : Type} (s : Analysis) (cur : Nat) (f : Inputs → T)
    (hstale : s.with_db cur f = Cancelable.err) : s.capturedRevision ≠ cur := by
  intro heq
  rw [with_db_ok s cur f heq] at hstale
  exact ok_ne_err _ hstale

theorem revision_le_stepHost (h : AnalysisHost) (op : HostOp) :
    h.revision ≤ (stepHost h op).revision := by
  cases op with
  | applyChange c => exact Nat.le_succ _
  | collectGarbage => exact Nat.le.refl
  | maybeCollectGarbage => exact Nat.le.refl

theorem revision_le_runHost (h : AnalysisHost) (ops : List HostOp) :
    h.revision ≤ (runHost h ops).revision := by
  induction ops generalizing h with
  | nil => exact Nat.le.refl
  | cons op ops ih =>
    exact Nat.le_trans (revision_le_stepHost h op) (ih (stepHost h op))

theorem applyChangeInputs_empty (st : Inputs) :
    applyChangeInputs AnalysisChange.empty st = st := by
  cases st
  simp [applyChangeInputs, AnalysisChange.empty]

theorem MemoDb.run_fst {κ α : Type} [DecidableEq κ] (q : κ → Inputs → α)
    (db : MemoDb κ α) (k : κ) (h : db.WellFormed q) :
    (db.run q k).1 = q k db.inputs := by
  unfold MemoDb.run
  cases hc : db.cache k with
  | none => simp
  | some e =>
    by_cases hv : e.verifiedRevision = db.revision
    · simp [hv, h k e hc hv]
    · simp [hv]

theorem MemoDb.run_inputs {κ α : Type} [DecidableEq κ] (q : κ → Inputs → α)
    (db : MemoDb κ α) (k : κ) : (db.run q k).2.inputs = db.inputs := by
  unfold MemoDb.run
  cases hc : db.cache k with
  | none => simp
  | some e =>
    by_cases hv : e.verifiedRevision = db.revision
    · simp [hv]
    · simp [hv]

theorem MemoDb.run_revision {κ α : Type} [DecidableEq κ] (q : κ → Inputs → α)
    (db : MemoDb κ α) (k : κ) : (db.run q k).2.revision = db.revision := by
  unfold MemoDb.run
  cases hc : db.cache k with
  | none => simp
  | some e =>
    by_cases hv : e.verifiedRevision = db.revision
    · simp [hv]
    · simp [hv]

theorem MemoDb.run_wf {κ α : Type} [DecidableEq κ] (q : κ → Inputs → α)
    (db : MemoDb κ α) (k : κ) (h : db.WellFormed q) :
    ((db.run q k).2).WellFormed q := by
  unfold MemoDb.run
  cases hc : db.cache k with
  | none =>
    intro k2 e2 hce hv
    show e2.value = q k2 db.inputs
    by_cases hk : k2 = k
    · subst hk
      simp at hce
      rw [← hce]
    · simp [hk] at hce
      exact h k2 e2 hce hv
  | some e =>
    by_cases hv0 : e.verifiedRevision = db.revision
    · simp only [hv0, if_pos rfl]
      exact h
    · simp only [if_neg hv0]
      intro k2 e2 hce hv
      show e2.value = q k2 db.inputs
      by_cases hk : k2 = k
      · subst hk
        simp at hce
        rw [← hce]
      · simp [hk] at hce
        exact h k2 e2 hce hv

theorem MemoDb.collect_garbage_wf {κ α : Type} (q : κ → Inputs → α)
    (db : MemoDb κ α) (keep : κ → Bool) (h : db.WellFormed q) :
    (db.collect_garbage keep).WellFormed q := by
  intro k e hce hv
  unfold MemoDb.collect_garbage at hce
  by_cases hk : keep k = true
  · simp [hk] at hce
    exact h k e hce hv
  · simp [hk] at hce

theorem length_insertByLe {α : Type} (le : α → α → Bool) (a : α) (l : List α) :
    (insertByLe le a l).length = l.length + 1 := by
  induction l with
  | nil => rfl
  | cons b t ih =>
    unfold insertByLe
    by_cases hle : le a b
    · simp [hle]
    · simp [hle, ih]

theorem length_sortByLe {α : Type} (le : α → α → Bool) (l : List α) :
    (sortByLe le l).length = l.length := by
  induction l with
  | nil => rfl
  | cons a t ih =>
    unfold sortByLe
    rw [length_insertByLe, ih]
    rfl

theorem mem_insertByLe {α : Type} (le : α → α → Bool) (a x : α) (l : List α) :
    x ∈ insertByLe le a l ↔ x = a ∨ x ∈ l := by
  induction l with
  | nil => simp [insertByLe]
  | cons b t ih =>
    unfold insertByLe
    by_cases hle : le a b
    · simp [hle]
    · simp only [if_neg hle, List.mem_cons, ih]
      tauto

theorem mem_sortByLe {α : Type} (le : α → α → Bool) (x : α) (l : List α) :
    x ∈ sortByLe le l ↔ x ∈ l := by
  induction l with
  | nil => simp [sortByLe]
  | cons a t ih =>
    unfold sortByLe
    rw [mem_insertByLe]
    simp [ih]

/-! ## The claims -/

/-- C1: every Snapshot taken from the host before an `apply_change`
yields `Err(Canceled)` for every `Cancelable` query issued after the
change is applied, under any further host evolution; and a Snapshot
that has yielded the stale signal once (at some current revision at or
after its capture) yields it for every subsequent query, under any
further host evolution — it never revives. -/
theorem snapshot_isolation_never_revives
    (h : AnalysisHost) (c : AnalysisChange) (ops : List HostOp)
    {T : Type} (f : Inputs → T) (s : Analysis)
    (hcap : s.capturedRevision ≤ h.revision)
    (hstale : s.with_db h.revision f = Cancelable.err) :
    (h.analysis).with_db (runHost (h.apply_change c) ops).revision f
        = Cancelable.err ∧
    s.with_db (runHost h ops).revision f = Cancelable.err := by
  constructor
  · apply with_db_err
    show h.revision ≠ (runHost (h.apply_change c) ops).revision
    have h1 : h.revision + 1 ≤ (runHost (h.apply_change c) ops).revision :=
      revision_le_runHost (h.apply_change c) ops
    omega
  · apply with_db_err
    have hne : s.capturedRevision ≠ h.revision := with_db_stale_ne s h.revision f hstale
    have h2 : h.revision ≤ (runHost h ops).revision := revision_le_runHost h ops
    omega

/-- C1 witness: a host at revision 1, a snapshot captured at revision 0
that is already stale, an empty change, and one garbage-collection step
afterwards. -/
theorem snapshot_isolation_never_revives_witness :
    (snap0.capturedRevision ≤ host1.revision ∧
     snap0.with_db host1.revision (fun _ => (0 : Nat)) = Cancelable.err) ∧
    ((host1.analysis).with_db
        (runHost (host1.apply_change AnalysisChange.empty)
          [HostOp.collectGarbage]).revision (fun _ => (0 : Nat))
        = Cancelable.err ∧
     snap0.with_db (runHost host1 [HostOp.collectGarbage]).revision
        (fun _ => (0 : Nat)) = Cancelable.err) :=
  ⟨⟨by decide, by rfl⟩,
   snapshot_isolation_never_revives host1 AnalysisChange.empty
     [HostOp.collectGarbage] (fun _ => (0 : Nat)) snap0 (by decide) (by rfl)⟩

/-- C2: every query result is either the computed value or the single
uniform staleness signal — `Cancelable T` admits exactly the error
`Canceled`, and a `with_db` query yields either the computed value or
`Err(Canceled)`. -/
theorem cancelable_single_error_kind {T : Type} (s : Analysis) (cur : Nat)
    (f : Inputs → T) :
    (∀ r : Cancelable T, (∃ v, r = Cancelable.ok v) ∨ r = Cancelable.err) ∧
    (s.with_db cur f = Cancelable.ok (f s.inputs) ∨
     s.with_db cur f = Cancelable.err) := by
  constructor
  · intro r
    cases r with
    | ok v => exact Or.inl ⟨v, rfl⟩
    | error e => cases e; exact Or.inr rfl
  · by_cases hcur : s.capturedRevision = cur
    · exact Or.inl (with_db_ok s cur f hcur)
    · exact Or.inr (with_db_err s cur f hcur)

/-- C3: for a fixed database state, a memoized query run returns the
value of a full from-scratch recomputation, and a repeated identical
run returns the identical result. -/
theorem memoization_correctness {κ α : Type} [DecidableEq κ]
    (q : κ → Inputs → α) (db : MemoDb κ α) (k : κ)
    (h : db.WellFormed q) :
    (db.run q k).1 = q k db.inputs ∧
    (((db.run q k).2).run q k).1 = (db.run q k).1 := by
  have h1 : (db.run q k).1 = q k db.inputs := MemoDb.run_fst q db k h
  have hwf : ((db.run q k).2).WellFormed q := MemoDb.run_wf q db k h
  have h2 : (((db.run q k).2).run q k).1 = q k ((db.run q k).2).inputs :=
    MemoDb.run_fst q ((db.run q k).2) k hwf
  rw [MemoDb.run_inputs] at h2
  exact ⟨h1, by rw [h2, h1]⟩

/-- C3 witness: the empty-cache memo database over `Nat` keys at key 5. -/
theorem memoization_correctness_witness :
    (memoDb0.run memoQuery0 5).1 = memoQuery0 5 memoDb0.inputs ∧
    (((memoDb0.run memoQuery0 5).2).run memoQuery0 5).1
        = (memoDb0.run memoQuery0 5).1 :=
  memoization_correctness memoQuery0 memoDb0 5
    (fun _ _ hce _ => Option.noConfusion hce)

/-- C4: applying a Change whose edit sets are empty leaves every
externally observable query result unchanged — a query on the snapshot
taken after the empty change equals the same query on the snapshot
taken before it — even though the revision counter advances. -/
theorem noop_change_transparent (h : AnalysisHost) {T : Type} (f : Inputs → T) :
    ((h.apply_change AnalysisChange.empty).analysis).with_db
        (h.apply_change AnalysisChange.empty).revision f
      = (h.analysis).with_db h.revision f ∧
    (h.apply_change AnalysisChange.empty).revision = h.revision + 1 := by
  constructor
  · have e1 : ((h.apply_change AnalysisChange.empty).analysis).with_db
        (h.apply_change AnalysisChange.empty).revision f
          = Cancelable.ok (f (applyChangeInputs AnalysisChange.empty h.inputs)) :=
      with_db_ok _ _ f rfl
    have e2 : (h.analysis).with_db h.revision f = Cancelable.ok (f h.inputs) :=
      with_db_ok _ _ f rfl
    rw [e1, e2, applyChangeInputs_empty]
  · rfl

/-- C5: `collect_garbage` never changes the observable result of any
subsequent query — for every eviction policy, a memoized query run on
the collected database returns the same value as on the uncollected
one, and at the host level `collect_garbage` leaves the state used by
queries untouched. -/
theorem gc_transparency {κ α : Type} [DecidableEq κ]
    (q : κ → Inputs → α) (db : MemoDb κ α) (keep : κ → Bool) (k : κ)
    (hh : AnalysisHost) (h : db.WellFormed q) :
    ((db.collect_garbage keep).run q k).1 = (db.run q k).1 ∧
    (db.collect_garbage keep).inputs = db.inputs ∧
    (db.collect_garbage keep).revision = db.revision ∧
    hh.collect_garbage = hh ∧ hh.maybe_collect_garbage = hh := by
  refine ⟨?_, rfl, rfl, rfl, rfl⟩
  have hwf : (db.collect_garbage keep).WellFormed q :=
    MemoDb.collect_garbage_wf q db keep h
  rw [MemoDb.run_fst q db k h, MemoDb.run_fst q (db.collect_garbage keep) k hwf]
  rfl

/-- C5 witness: the empty-cache memo database, the evict-everything
policy, and the host at revision 1. -/
theorem gc_transparency_witness :
    ((memoDb0.collect_garbage (fun _ => false)).run memoQuery0 5).1
        = (memoDb0.run memoQuery0 5).1 ∧
    (memoDb0.collect_garbage (fun _ => false)).inputs = memoDb0.inputs ∧
    (memoDb0.collect_garbage (fun _ => false)).revision = memoDb0.revision ∧
    host1.collect_garbage = host1 ∧ host1.maybe_collect_garbage = host1 :=
  gc_transparency memoQuery0 memoDb0 (fun _ => false) 5 host1
    (fun _ _ hce _ => Option.noConfusion hce)

/-- C6: a facade operation returns its output wrapped in `Cancelable`
exactly when it is not one of the pure syntax-only helpers (file text,
parse, line index, matching brace, join lines, on-enter/on-eq/on-dot
edits, file structure, folding ranges). -/
theorem facade_cancelable_iff_not_syntax_only :
    ∀ op : FacadeOp, returnsCancelable op = true ↔ specSyntaxOnlyHelper op = false := by
  intro op
  cases op <;> decide

/-- C7 counterexample: `join_lines` does not take a file position and
return an optional edit — it takes a file range and returns a
non-optional edit (lib.rs line 254). -/
theorem join_lines_shape_counterexample :
    ¬(inputKind FacadeOp.join_lines = InputKind.filePosition ∧
      outputKind FacadeOp.join_lines = OutputKind.optionalEdit) := by
  decide

/-- C7 (amended): `on_enter`, `on_eq_typed` and `on_dot_typed` take a
file position and return an optional recommended edit, while
`join_lines` takes a file range and returns a recommended edit
unconditionally. -/
theorem typing_assist_shapes :
    (inputKind FacadeOp.on_enter = InputKind.filePosition ∧
     outputKind FacadeOp.on_enter = OutputKind.optionalEdit) ∧
    (inputKind FacadeOp.on_eq_typed = InputKind.filePosition ∧
     outputKind FacadeOp.on_eq_typed = OutputKind.optionalEdit) ∧
    (inputKind FacadeOp.on_dot_typed = InputKind.filePosition ∧
     outputKind FacadeOp.on_dot_typed = OutputKind.optionalEdit) ∧
    (inputKind FacadeOp.join_lines = InputKind.fileRange ∧
     outputKind FacadeOp.join_lines = OutputKind.edit) := by
  decide

/-- C8: with the exact flag set, `world_symbols` returns at most
`limit` results, all named exactly the query text, exactly `limit` of
them when at least `limit` symbols match, and `symbol_search` is
deterministic across repeated identical calls on the same Snapshot. -/
theorem symbol_search_exact_limit (symbols : List FileSymbol) (q : Query)
    (hexact : q.exact = true) :
    (world_symbols symbols q).length ≤ q.limit ∧
    (∀ s ∈ world_symbols symbols q, s.name = q.query) ∧
    (q.limit ≤ (symbols.filter (symbolMatches q)).length →
      (world_symbols symbols q).length = q.limit) ∧
    (∀ (a : Analysis) (cur : Nat),
      a.symbol_search cur symbols q = a.symbol_search cur symbols q) := by
  refine ⟨?_, ?_, ?_, fun _ _ => rfl⟩
  · unfold world_symbols
    rw [List.length_take]
    exact Nat.min_le_left _ _
  · intro s hs
    unfold world_symbols at hs
    have hs2 : s ∈ sortByLe symbolLe (symbols.filter (symbolMatches q)) :=
      List.mem_of_mem_take hs
    rw [mem_sortByLe] at hs2
    have hm : symbolMatches q s = true := (List.mem_filter.mp hs2).2
    unfold symbolMatches at hm
    rw [hexact] at hm
    simp at hm
    exact hm
  · intro hlim
    unfold world_symbols
    rw [List.length_take, length_sortByLe]
    exact Nat.min_eq_left hlim

/-- C8 witness (spec Scenario B): 15 symbols named `foo` and 3 named
`foobar`, query text `foo` with the exact flag and limit 10 — exactly
10 results, all named `foo`. -/
theorem symbol_search_exact_limit_witness :
    (world_symbols scenarioSymbols scenarioQuery).length = 10 ∧
    ((world_symbols scenarioSymbols scenarioQuery).length ≤ scenarioQuery.limit ∧
     (∀ s ∈ world_symbols scenarioSymbols scenarioQuery,
        s.name = scenarioQuery.query) ∧
     (scenarioQuery.limit ≤
        (scenarioSymbols.filter (symbolMatches scenarioQuery)).length →
      (world_symbols scenarioSymbols scenarioQuery).length = scenarioQuery.limit) ∧
     (∀ (a : Analysis) (cur : Nat),
        a.symbol_search cur scenarioSymbols scenarioQuery
          = a.symbol_search cur scenarioSymbols scenarioQuery)) :=
  ⟨by decide,
   symbol_search_exact_limit scenarioSymbols scenarioQuery (by decide)⟩

/-- C9: `Query::new s` carries the original text `s` and the
lowercased form of `s`, together with the three flags and the result
limit of the `Query` structure. -/
theorem query_new_carries_text_and_lowercase (s : String) :
    (Query.new s).query = s ∧ (Query.new s).lowercased = to_lowercase s :=
  ⟨rfl, rfl⟩

/-- C10: `Query::new` clears the three flags and sets the limit to
`usize::max_value()`, and each setter modifies only its own field. -/
theorem query_defaults_and_setter_frames (s : String) (q : Query) (n : Nat) :
    ((Query.new s).only_types = false ∧ (Query.new s).libs = false ∧
     (Query.new s).exact = false ∧ (Query.new s).limit = usizeMax) ∧
    (q.only_types'.only_types = true ∧ q.only_types'.query = q.query ∧
     q.only_types'.lowercased = q.lowercased ∧ q.only_types'.libs = q.libs ∧
     q.only_types'.exact = q.exact ∧ q.only_types'.limit = q.limit) ∧
    (q.libs'.libs = true ∧ q.libs'.query = q.query ∧
     q.libs'.lowercased = q.lowercased ∧ q.libs'.only_types = q.only_types ∧
     q.libs'.exact = q.exact ∧ q.libs'.limit = q.limit) ∧
    (q.exact'.exact = true ∧ q.exact'.query = q.query ∧
     q.exact'.lowercased = q.lowercased ∧ q.exact'.only_types = q.only_types ∧
     q.exact'.libs = q.libs ∧ q.exact'.limit = q.limit) ∧
    ((q.limit' n).limit = n ∧ (q.limit' n).query = q.query ∧
     (q.limit' n).lowercased = q.lowercased ∧
     (q.limit' n).only_types = q.only_types ∧ (q.limit' n).libs = q.libs ∧
     (q.limit' n).exact = q.exact) :=
  ⟨⟨rfl, rfl, rfl, rfl⟩,
   ⟨rfl, rfl, rfl, rfl, rfl, rfl⟩,
   ⟨rfl, rfl, rfl, rfl, rfl, rfl⟩,
   ⟨rfl, rfl, rfl, rfl, rfl, rfl⟩,
   ⟨rfl, rfl, rfl, rfl, rfl, rfl⟩⟩

end RaIdeApi
